import Mathlib

/-!
Shallow embedding of the resident-directory backend
(`src/resident_directory_backend/`), covering the parts of the code the
claims speak about:

* the `Photo` table and the four write paths that can touch the
  `is_primary` flag (`Photo.save` in `api/models.py`,
  `PhotoSerializer.update` in `api/serializers.py`, the nested
  photo-create branch of `ResidentViewSet.photos` and
  `PhotoViewSet.set_primary` in `api/views.py`);
* the resident list filtering of `ResidentViewSet.get_queryset`;
* the permission checks (`ResidentPermissions.has_permission`,
  `AdminSummaryView`'s `IsAdminUser`);
* the `register` view.

The database is modelled as a plain list of rows.  Each committed SQL
statement is one pure state transition; a `transaction.atomic` block
collapses its statements into a single observable transition (that is the
only place the distinction matters, and it is made explicit in the
`*Trace` definitions used for the atomicity claim).
-/

/-- A row of the `Photo` table.  The fields `image` and `uploaded_at`
(`api/models.py`, lines 49 and 51) are never read by any of the write
paths or properties under study and are omitted; `id` is the primary key,
`resident` the foreign key to the owning resident. -/
structure Photo where
  id : Nat
  resident : Nat
  is_primary : Bool
deriving DecidableEq, Repr

/-- The `Photo` table: a list of rows. -/
abbrev PhotoDB := List Photo

/-- `Photo.objects.filter(resident=r, is_primary=True).exclude(pk=pk).update(is_primary=False)`
— the sibling-demotion UPDATE statement shared by all write paths
(`api/models.py` line 61, `api/serializers.py` line 46, `api/views.py`
lines 92 and 120). -/
def demoteOthers (db : PhotoDB) (r pk : Nat) : PhotoDB :=
  db.map fun p =>
    if p.resident = r ∧ p.is_primary = true ∧ p.id ≠ pk then
      { p with is_primary := false }
    else p

/-- Django's `Model.save` base behaviour (`super().save(*args, **kwargs)`,
`api/models.py` line 58): UPDATE the row with this primary key if it
exists, otherwise INSERT the row. -/
def superSave (db : PhotoDB) (p : Photo) : PhotoDB :=
  if db.any (fun q => q.id == p.id) then
    db.map (fun q => if q.id = p.id then p else q)
  else db ++ [p]

/-- `Photo.save` (`api/models.py` lines 56-61): persist the row, then, if
it is primary, demote every other photo of the same resident.  There is
no `transaction.atomic` around the two statements in the source. -/
def Photo.save (db : PhotoDB) (self : Photo) : PhotoDB :=
  let db1 := superSave db self
  if self.is_primary then demoteOthers db1 self.resident self.id else db1

/-- `get_object` / `Photo.objects.get(pk=pk)`: the row with primary key
`pk`, if any. -/
def findPhoto (db : PhotoDB) (pk : Nat) : Option Photo :=
  db.find? (fun p => p.id == pk)

/-- `PhotoViewSet.set_primary` (`api/views.py` lines 117-124): fetch the
photo, demote the other photos of its resident, and if the photo was not
already primary, set the flag and save it (which runs `Photo.save`).
On a missing `pk` the view raises 404 and the store is untouched, modelled
as the identity.  No `transaction.atomic` in the source. -/
def PhotoViewSet.set_primary (db : PhotoDB) (pk : Nat) : PhotoDB :=
  match findPhoto db pk with
  | none => db
  | some photo =>
    let db1 := demoteOthers db photo.resident pk
    if photo.is_primary then db1
    else Photo.save db1 { photo with is_primary := true }

/-- `PhotoSerializer.update` (`api/serializers.py` lines 42-47): inside
`transaction.atomic`, run the base `ModelSerializer.update` — which
assigns the validated fields and calls `instance.save()`, i.e. the
overridden `Photo.save` — then demote the siblings once more if the
instance is primary.  `new_primary` is the `is_primary` value of
`validated_data`; the other writable fields play no role in any claim. -/
def PhotoSerializer.update (db : PhotoDB) (pk : Nat) (new_primary : Bool) : PhotoDB :=
  match findPhoto db pk with
  | none => db
  | some photo =>
    let inst := { photo with is_primary := new_primary }
    let db1 := Photo.save db inst
    if inst.is_primary then demoteOthers db1 inst.resident pk else db1

/-- The POST branch of `ResidentViewSet.photos` (`api/views.py` lines
86-94): `serializer.save()` creates the row via `Photo.save`, then the
view demotes the siblings once more if the new photo is primary. -/
def ResidentViewSet.photos_post (db : PhotoDB) (p : Photo) : PhotoDB :=
  let db1 := Photo.save db p
  if p.is_primary then demoteOthers db1 p.resident p.id else db1

/-- `PhotoViewSet.destroy` (`api/views.py` lines 109-113): `photo.delete()`
removes the row and nothing else. -/
def PhotoViewSet.destroy (db : PhotoDB) (pk : Nat) : PhotoDB :=
  db.filter (fun p => p.id != pk)

/-- Number of photos of resident `r` flagged primary. -/
def primaryCount (db : PhotoDB) (r : Nat) : Nat :=
  db.countP (fun p => p.resident == r && p.is_primary)

/-- `Resident.primary_photo` (`api/models.py` lines 35-38):
`self.photos.filter(is_primary=True).first()` — some photo of the
resident with the primary flag set, or none. -/
def Resident.primary_photo (db : PhotoDB) (r : Nat) : Option Photo :=
  (db.filter (fun p => p.resident == r)).find? (fun p => p.is_primary)

/-- One committed write through one of the four paths that can set the
primary flag (claim C1 lists exactly these). -/
inductive WriteOp where
  | modelSave (p : Photo)
  | serializerUpd (pk : Nat) (new_primary : Bool)
  | nestedCreate (p : Photo)
  | setPrim (pk : Nat)
deriving Repr

/-- Apply one write to the store. -/
def applyOp (db : PhotoDB) : WriteOp → PhotoDB
  | .modelSave p => Photo.save db p
  | .serializerUpd pk b => PhotoSerializer.update db pk b
  | .nestedCreate p => ResidentViewSet.photos_post db p
  | .setPrim pk => PhotoViewSet.set_primary db pk

/-- Primary keys are unique — the database enforces this on the real
`Photo` table. -/
def NodupIds (db : PhotoDB) : Prop :=
  (db.map Photo.id).Nodup

/-- The single-primary invariant of the spec: every resident has at most
one photo flagged primary. -/
def AtMostOnePrimary (db : PhotoDB) : Prop :=
  ∀ r, primaryCount db r ≤ 1

/-- Well-formedness of the photo store: unique primary keys and the
single-primary invariant. -/
def GoodDB (db : PhotoDB) : Prop :=
  NodupIds db ∧ AtMostOnePrimary db

/-- Observable states of `Photo.save`, one per committed statement: the
base-save commit, then (when primary) the demotion commit.  The source
wraps neither in a transaction, so both states are observable. -/
def Photo.saveTrace (db : PhotoDB) (self : Photo) : List PhotoDB :=
  let db1 := superSave db self
  if self.is_primary then [db1, demoteOthers db1 self.resident self.id] else [db1]

/-- Observable states of `PhotoViewSet.set_primary`: the demotion commits
first, then each statement of `photo.save(...)` commits separately — the
view has no transactional scope in the source. -/
def PhotoViewSet.setPrimaryTrace (db : PhotoDB) (pk : Nat) : List PhotoDB :=
  match findPhoto db pk with
  | none => []
  | some photo =>
    let db1 := demoteOthers db photo.resident pk
    if photo.is_primary then [db1]
    else db1 :: Photo.saveTrace db1 { photo with is_primary := true }

/-- Observable states of `PhotoSerializer.update`: the whole body runs
under `transaction.atomic` (`api/serializers.py` line 43), so exactly one
state — the final one — is observable. -/
def PhotoSerializer.updateTrace (db : PhotoDB) (pk : Nat) (new_primary : Bool) : List PhotoDB :=
  [PhotoSerializer.update db pk new_primary]

/-- A row of the `Resident` table (`api/models.py` lines 13-33).  The
fields `dob`, `notes` and the timestamps are not consulted by the list
filters or ordering and are omitted. -/
structure Resident where
  id : Nat
  first_name : String
  last_name : String
  apartment : String
  phone : String
  email : String
  is_active : Bool
deriving DecidableEq, Repr

/-- Characters of `s` lowercased — the case folding underlying Django's
`icontains` lookups and Python's `str.lower` for the `is_active` parse. -/
def lowerChars (s : String) : List Char :=
  s.data.map Char.toLower

/-- `needle` occurs as a contiguous run inside the second list. -/
def containsSub (needle : List Char) : List Char → Bool
  | [] => needle.isEmpty
  | c :: t => needle.isPrefixOf (c :: t) || containsSub needle t

/-- Django's `field__icontains=q`: case-insensitive substring test. -/
def icontains (hay q : String) : Bool :=
  containsSub (lowerChars q) (lowerChars hay)

/-- The `Q(first_name__icontains=q) | ... | Q(email__icontains=q)` filter
of `ResidentViewSet.get_queryset` (`api/views.py` lines 63-70). -/
def qMatches (q : String) (r : Resident) : Bool :=
  icontains r.first_name q || icontains r.last_name q ||
  icontains r.apartment q || icontains r.phone q || icontains r.email q

/-- `is_active.lower() in ('1', 'true', 'yes')` (`api/views.py` line 74). -/
def parseActiveParam (s : String) : Bool :=
  let l := String.mk (lowerChars s)
  l == "1" || l == "true" || l == "yes"

/-- The three optional query parameters of the resident list
(`request.query_params.get` returns the raw string or `None`). -/
structure ListParams where
  q : Option String := none
  apartment : Option String := none
  is_active : Option String := none

/-- The `if q: qs = qs.filter(...)` block (`api/views.py` lines 63-70).
`if q:` is a Python truthiness test, false for both a missing parameter
and the empty string. -/
def qClause (qo : Option String) (r : Resident) : Bool :=
  match qo with
  | none => true
  | some s => if s.isEmpty then true else qMatches s r

/-- The `if apartment: qs = qs.filter(apartment=apartment)` block
(`api/views.py` lines 71-72), again a truthiness test. -/
def apartmentClause (ao : Option String) (r : Resident) : Bool :=
  match ao with
  | none => true
  | some s => if s.isEmpty then true else r.apartment == s

/-- The `if is_active is not None:` block (`api/views.py` lines 73-75):
it fires for every supplied string, empty included, comparing against
the parsed boolean. -/
def isActiveClause (io : Option String) (r : Resident) : Bool :=
  match io with
  | none => true
  | some s => r.is_active == parseActiveParam s

/-- Row predicate accumulated by `ResidentViewSet.get_queryset`
(`api/views.py` lines 57-75): the conjunction of the three sequentially
applied filter blocks. -/
def residentPred (ps : ListParams) (r : Resident) : Bool :=
  qClause ps.q r && apartmentClause ps.apartment r && isActiveClause ps.is_active r

/-- Lexicographic comparison of character lists by code point, the
database's ascending ordering on string columns. -/
def lexLe : List Char → List Char → Bool
  | [], _ => true
  | _ :: _, [] => false
  | a :: as, b :: bs => if a = b then lexLe as bs else decide (a.toNat ≤ b.toNat)

/-- Ascending comparison of two strings. -/
def strLe (a b : String) : Bool :=
  lexLe a.data b.data

/-- The sort key of `.order_by('last_name', 'first_name')`
(`api/views.py` line 76): last name, ties broken by first name. -/
def residentLE (a b : Resident) : Bool :=
  if a.last_name = b.last_name then strLe a.first_name b.first_name
  else strLe a.last_name b.last_name

/-- Insert a row into a list sorted by `residentLE`. -/
def orderInsert (x : Resident) : List Resident → List Resident
  | [] => [x]
  | y :: t => if residentLE x y then x :: y :: t else y :: orderInsert x t

/-- `.order_by('last_name', 'first_name')`: sort ascending by the
two-field key (insertion sort over `residentLE`). -/
def orderBy (db : List Resident) : List Resident :=
  db.foldr orderInsert []

/-- `ResidentViewSet.get_queryset` (`api/views.py` lines 57-76): apply
the three optional filters, then order by last name and first name. -/
def ResidentViewSet.get_queryset (db : List Resident) (ps : ListParams) : List Resident :=
  orderBy (db.filter (residentPred ps))

/-- Case-insensitive-substring relation as the spec words it (claim C6):
`q` appears as a case-insensitive substring of `hay`.  Stated with
Mathlib's list-infix relation, independently of `containsSub`. -/
def substrCI (q hay : String) : Prop :=
  lowerChars q <:+: lowerChars hay

/-- The filter as claim C6 states it: the conjunction of the supplied
filters, where a supplied `q` must be a case-insensitive substring of at
least one of the five fields, a supplied `apartment` must match exactly,
a supplied `is_active` must equal the parsed boolean, and an absent
parameter imposes no restriction. -/
def claimMatches (ps : ListParams) (r : Resident) : Prop :=
  (∀ s, ps.q = some s →
    (substrCI s r.first_name ∨ substrCI s r.last_name ∨ substrCI s r.apartment ∨
     substrCI s r.phone ∨ substrCI s r.email)) ∧
  (∀ s, ps.apartment = some s → r.apartment = s) ∧
  (∀ s, ps.is_active = some s → r.is_active = parseActiveParam s)

/-- Ascending "last name, then first name" ordering as the claim words
it: strict lexicographic code-point order on the last names, ties broken
the same way by the first names.  Stated with Mathlib's `List.Lex`,
independently of the executable comparator `residentLE`. -/
def specOrder (a b : Resident) : Prop :=
  List.Lex (fun c d : Char => c.toNat < d.toNat) a.last_name.data b.last_name.data ∨
  (a.last_name = b.last_name ∧
    (List.Lex (fun c d : Char => c.toNat < d.toNat) a.first_name.data b.first_name.data ∨
     a.first_name = b.first_name))

/-- An HTTP actor as the permission code sees it: `request.user` with its
`is_authenticated` and `is_staff` flags (an anonymous request carries an
anonymous user with both flags false). -/
structure Actor where
  is_authenticated : Bool
  is_staff : Bool
deriving DecidableEq, Repr

/-- The viewset actions `ResidentPermissions` distinguishes. -/
inductive ResidentAction where
  | list | retrieve | create | update | patchUpdate | destroy
deriving DecidableEq, Repr

/-- `ResidentPermissions.has_permission` (`api/views.py` lines 31-40):
destroy requires staff, everything else requires authentication. -/
def ResidentPermissions.has_permission (user : Actor) (action : ResidentAction) : Bool :=
  match action with
  | .destroy => user.is_staff
  | .list | .retrieve => user.is_authenticated
  | .create | .update | .patchUpdate => user.is_authenticated

/-- The framework's `IsAdminUser` permission used by `AdminSummaryView`
(`api/views.py` line 155): `request.user and request.user.is_staff`. -/
def IsAdminUser (user : Actor) : Bool :=
  user.is_staff

/-- Status of a denied request: the framework maps a failed permission
check to 401 for an unauthenticated actor and 403 for an authenticated
one. -/
def deniedStatus (user : Actor) : Nat :=
  if user.is_authenticated then 403 else 401

/-- Outcome of dispatching a resident action: 200-class success when the
permission check passes, otherwise the denial status.  The permission
check runs before any data access. -/
def residentActionStatus (user : Actor) (action : ResidentAction) : Nat :=
  if ResidentPermissions.has_permission user action then 200 else deniedStatus user

/-- Outcome of `GET /admin/summary/`. -/
def adminSummaryStatus (user : Actor) : Nat :=
  if IsAdminUser user then 200 else deniedStatus user

/-- Response of the `register` view: HTTP status, response body as a
key-value mapping, and the resulting user store. -/
structure RegisterResult where
  statusCode : Nat
  body : List (String × String)
  users : List String
deriving DecidableEq, Repr

/-- The `register` view (`api/views.py` lines 128-149).  The user store
is the list of existing usernames; `username` and `password` are
`request.data.get(...)`, i.e. `None` when missing.  `if not username or
not password` is Python truthiness: missing or empty. -/
def register (users : List String) (username password : Option String) : RegisterResult :=
  match username, password with
  | some u, some p =>
    if u.isEmpty || p.isEmpty then
      ⟨400, [("detail", "username and password are required")], users⟩
    else if users.contains u then
      ⟨400, [("detail", "Username already exists")], users⟩
    else
      ⟨201, [("success", "True"), ("username", u)], users ++ [u]⟩
  | _, _ => ⟨400, [("detail", "username and password are required")], users⟩


/-! ### Counting helpers for the photo store -/

/-- Unique primary keys bound the number of rows with a given key by one. -/
theorem countP_pk_le_one (db : PhotoDB) (pk : Nat) (h : NodupIds db) :
    db.countP (fun p => p.id == pk) ≤ 1 := by
  induction db with
  | nil => simp
  | cons p t ih =>
    simp only [NodupIds, List.map_cons, List.nodup_cons, List.mem_map] at h
    rw [List.countP_cons]
    by_cases hpk : p.id = pk
    · have ht : t.countP (fun q => q.id == pk) = 0 := by
        rw [List.countP_eq_zero]
        intro a ha hc
        simp only [beq_iff_eq] at hc
        exact h.1 ⟨a, ha, by rw [hc, hpk]⟩
      simp [ht, hpk]
    · have ht := ih h.2
      simp only [beq_iff_eq, hpk, if_false]
      simpa using ht

/-- After a demotion targeting resident `r` and excluding key `pk`, every
remaining primary of `r` carries key `pk`, so unique keys bound the count
by one. -/
theorem demote_primaryCount_le (db : PhotoDB) (r pk : Nat) (h : NodupIds db) :
    primaryCount (demoteOthers db r pk) r ≤ 1 := by
  have hle : primaryCount (demoteOthers db r pk) r ≤ db.countP (fun p => p.id == pk) := by
    unfold primaryCount demoteOthers
    rw [List.countP_map]
    apply List.countP_mono_left
    intro x hx hpx
    simp only [Function.comp_apply] at hpx
    by_cases hc : x.resident = r ∧ x.is_primary = true ∧ x.id ≠ pk
    · rw [if_pos hc] at hpx
      simp at hpx
    · rw [if_neg hc] at hpx
      simp only [Bool.and_eq_true, beq_iff_eq] at hpx
      push_neg at hc
      simp only [beq_iff_eq]
      exact hc hpx.1 hpx.2
  exact le_trans hle (countP_pk_le_one db pk h)

/-- Demotion scoped to resident `r` leaves every other resident's primary
count unchanged. -/
theorem demote_primaryCount_other (db : PhotoDB) (r pk r2 : Nat) (h : r2 ≠ r) :
    primaryCount (demoteOthers db r pk) r2 = primaryCount db r2 := by
  unfold primaryCount demoteOthers
  rw [List.countP_map]
  apply Nat.le_antisymm <;> apply List.countP_mono_left <;> intro x hx hpx
  · simp only [Function.comp_apply] at hpx
    by_cases hc : x.resident = r ∧ x.is_primary = true ∧ x.id ≠ pk
    · rw [if_pos hc] at hpx
      simp at hpx
    · rwa [if_neg hc] at hpx
  · simp only [Function.comp_apply]
    by_cases hc : x.resident = r ∧ x.is_primary = true ∧ x.id ≠ pk
    · exfalso
      simp only [Bool.and_eq_true, beq_iff_eq] at hpx
      exact h (hpx.1 ▸ hc.1)
    · rwa [if_neg hc]

/-- Demotion does not change the list of primary keys. -/
theorem demote_ids (db : PhotoDB) (r pk : Nat) :
    (demoteOthers db r pk).map Photo.id = db.map Photo.id := by
  unfold demoteOthers
  rw [List.map_map]
  apply List.map_congr_left
  intro a _
  by_cases hc : a.resident = r ∧ a.is_primary = true ∧ a.id ≠ pk
  · simp [hc]
  · simp [hc]

/-- Demotion preserves key uniqueness. -/
theorem demote_nodup (db : PhotoDB) (r pk : Nat) (h : NodupIds db) :
    NodupIds (demoteOthers db r pk) := by
  unfold NodupIds
  rw [demote_ids]
  exact h

/-- The base save (UPDATE-or-INSERT) preserves key uniqueness. -/
theorem superSave_nodup (db : PhotoDB) (p : Photo) (h : NodupIds db) :
    NodupIds (superSave db p) := by
  unfold NodupIds superSave
  split
  · rw [List.map_map]
    have hcg : ∀ a ∈ db, (Photo.id ∘ fun q => if q.id = p.id then p else q) a = Photo.id a := by
      intro a _
      by_cases hc : a.id = p.id
      · simp [hc]
      · simp [hc]
    rw [List.map_congr_left hcg]
    exact h
  · rename_i hany
    rw [List.map_append]
    simp only [List.map_cons, List.map_nil]
    rw [List.nodup_append]
    refine ⟨h, List.nodup_singleton _, ?_⟩
    intro a ha hb
    simp only [List.mem_singleton] at hb
    subst hb
    simp only [List.mem_map] at ha
    obtain ⟨x, hx, hxid⟩ := ha
    exact hany (by rw [List.any_eq_true]; exact ⟨x, hx, by simp [hxid]⟩)

/-- When the saved row does not count as a primary of `r`, the base save
cannot increase `r`'s primary count. -/
theorem superSave_primaryCount_le (db : PhotoDB) (p : Photo) (r : Nat)
    (hp : (p.resident == r && p.is_primary) = false) :
    primaryCount (superSave db p) r ≤ primaryCount db r := by
  unfold primaryCount superSave
  split
  · rw [List.countP_map]
    apply List.countP_mono_left
    intro x hx hpx
    simp only [Function.comp_apply] at hpx
    by_cases hc : x.id = p.id
    · rw [if_pos hc, hp] at hpx
      cases hpx
    · rwa [if_neg hc] at hpx
  · rw [List.countP_append]
    simp [List.countP_cons, hp]

/-- `Photo.save` preserves key uniqueness. -/
theorem save_nodup (db : PhotoDB) (p : Photo) (h : NodupIds db) :
    NodupIds (Photo.save db p) := by
  simp only [Photo.save]
  split
  · exact demote_nodup _ _ _ (superSave_nodup db p h)
  · exact superSave_nodup db p h

/-- `Photo.save` preserves the single-primary invariant. -/
theorem save_inv (db : PhotoDB) (p : Photo) (h1 : NodupIds db) (h2 : AtMostOnePrimary db) :
    AtMostOnePrimary (Photo.save db p) := by
  intro r
  simp only [Photo.save]
  split
  · by_cases hr : p.resident = r
    · subst hr
      exact demote_primaryCount_le _ _ _ (superSave_nodup db p h1)
    · rw [demote_primaryCount_other _ _ _ _ (fun hrr => hr hrr.symm)]
      refine le_trans (superSave_primaryCount_le db p r ?_) (h2 r)
      simp [hr]
  · rename_i hp
    refine le_trans (superSave_primaryCount_le db p r ?_) (h2 r)
    simp only [Bool.not_eq_true] at hp
    simp [hp]

/-- Demotion preserves store well-formedness. -/
theorem demote_good (db : PhotoDB) (r pk : Nat) (h : GoodDB db) :
    GoodDB (demoteOthers db r pk) := by
  refine ⟨demote_nodup db r pk h.1, fun r2 => ?_⟩
  by_cases hr : r2 = r
  · subst hr
    exact demote_primaryCount_le _ _ _ h.1
  · rw [demote_primaryCount_other _ _ _ _ hr]
    exact h.2 r2

/-- `Photo.save` preserves store well-formedness. -/
theorem save_good (db : PhotoDB) (p : Photo) (h : GoodDB db) :
    GoodDB (Photo.save db p) :=
  ⟨save_nodup db p h.1, save_inv db p h.1 h.2⟩

/-- `PhotoSerializer.update` preserves store well-formedness. -/
theorem serializer_update_good (db : PhotoDB) (pk : Nat) (b : Bool) (h : GoodDB db) :
    GoodDB (PhotoSerializer.update db pk b) := by
  unfold PhotoSerializer.update
  cases hf : findPhoto db pk with
  | none => exact h
  | some photo =>
    simp only
    split
    · exact demote_good _ _ _ (save_good _ _ h)
    · exact save_good _ _ h

/-- The nested photo-create view preserves store well-formedness. -/
theorem photos_post_good (db : PhotoDB) (p : Photo) (h : GoodDB db) :
    GoodDB (ResidentViewSet.photos_post db p) := by
  simp only [ResidentViewSet.photos_post]
  split
  · exact demote_good _ _ _ (save_good _ _ h)
  · exact save_good _ _ h

/-- `PhotoViewSet.set_primary` preserves store well-formedness. -/
theorem set_primary_good (db : PhotoDB) (pk : Nat) (h : GoodDB db) :
    GoodDB (PhotoViewSet.set_primary db pk) := by
  unfold PhotoViewSet.set_primary
  cases hf : findPhoto db pk with
  | none => exact h
  | some photo =>
    simp only
    split
    · exact demote_good _ _ _ h
    · exact save_good _ _ (demote_good _ _ _ h)

/-- Every write path preserves store well-formedness. -/
theorem applyOp_good (db : PhotoDB) (op : WriteOp) (h : GoodDB db) :
    GoodDB (applyOp db op) := by
  cases op with
  | modelSave p => exact save_good db p h
  | serializerUpd pk b => exact serializer_update_good db pk b h
  | nestedCreate p => exact photos_post_good db p h
  | setPrim pk => exact set_primary_good db pk h

/-- Well-formedness is preserved along any sequence of writes. -/
theorem foldl_applyOp_good (ops : List WriteOp) (db : PhotoDB) (h : GoodDB db) :
    GoodDB (ops.foldl applyOp db) := by
  induction ops generalizing db with
  | nil => exact h
  | cons op t ih => exact ih _ (applyOp_good db op h)

/-- The empty store is well-formed. -/
theorem emptyDB_good : GoodDB ([] : PhotoDB) :=
  ⟨by simp [NodupIds], fun r => by simp [primaryCount]⟩

/-- C1: for every sequence of photo writes through any write path (model
save, serializer update, nested photo-create view, or the set_primary
action), starting from an empty store, the number of a resident's photos
with the primary flag true after each committed write is 0 or 1, never
more.  The sequence is arbitrary, so the statement applies to every
committed prefix of any longer sequence. -/
theorem c1_single_primary_invariant (ops : List WriteOp) (r : Nat) :
    primaryCount (ops.foldl applyOp ([] : PhotoDB)) r ≤ 1 :=
  (foldl_applyOp_good ops [] emptyDB_good).2 r

/-- C2 counterexample: the model save path and the set_primary action do
not run inside a transactional scope, and their traces expose violating
intermediate states.  Saving a new primary photo (id 2) for resident 0
who already has primary photo 1 commits the INSERT first: the first
observable state of `Photo.saveTrace` has two photos of resident 0
flagged primary.  On the set_primary path for photo 2 of resident 0, the
demotion of photo 1 commits before photo 2's flag is set: the first
observable state has the demotion visible with no primary at all. -/
theorem c2_not_transactional_counterexample :
    (Photo.saveTrace [⟨1, 0, true⟩] ⟨2, 0, true⟩).head? =
      some [⟨1, 0, true⟩, ⟨2, 0, true⟩] ∧
    primaryCount [⟨1, 0, true⟩, ⟨2, 0, true⟩] 0 = 2 ∧
    (PhotoViewSet.setPrimaryTrace [⟨1, 0, true⟩, ⟨2, 0, false⟩] 2).head? =
      some [⟨1, 0, false⟩, ⟨2, 0, false⟩] ∧
    primaryCount [⟨1, 0, false⟩, ⟨2, 0, false⟩] 0 = 0 := by
  refine ⟨rfl, rfl, rfl, rfl⟩

/-- C2 (amended): only the serializer update path wraps the sibling
demotion and the setting of the new primary in a single transactional
scope — its trace has exactly one observable state, and on a well-formed
store that state never shows a resident with two primary photos.  The
model save path and the set_primary action commit their statements
separately, and intermediate states violating the claim are observable
(see the counterexample). -/
theorem c2_serializer_update_atomic (db : PhotoDB) (pk : Nat) (b : Bool)
    (h : GoodDB db) :
    (PhotoSerializer.updateTrace db pk b).length = 1 ∧
    ∀ s ∈ PhotoSerializer.updateTrace db pk b, ∀ r, primaryCount s r ≤ 1 := by
  refine ⟨rfl, ?_⟩
  intro s hs r
  simp only [PhotoSerializer.updateTrace, List.mem_singleton] at hs
  subst hs
  exact (serializer_update_good db pk b h).2 r

/-- Witness for the amended C2 at a concrete store: resident 0 has
primary photo 1, and photo 2 is promoted through the serializer path. -/
theorem c2_serializer_update_atomic_witness :
    GoodDB [⟨1, 0, true⟩, ⟨2, 0, false⟩] ∧
    ((PhotoSerializer.updateTrace [⟨1, 0, true⟩, ⟨2, 0, false⟩] 2 true).length = 1 ∧
     ∀ s ∈ PhotoSerializer.updateTrace [⟨1, 0, true⟩, ⟨2, 0, false⟩] 2 true,
       ∀ r, primaryCount s r ≤ 1) := by
  have hg : GoodDB [⟨1, 0, true⟩, ⟨2, 0, false⟩] := by
    refine ⟨by unfold NodupIds; decide, fun r => ?_⟩
    by_cases h : (0 : Nat) = r <;> simp [primaryCount, List.countP_cons, h]
  exact ⟨hg, c2_serializer_update_atomic _ 2 true hg⟩

/-! ### Post-state of set_primary (claim C3) -/

/-- `l.any (fun q => q.id == n)` holds exactly when key `n` occurs. -/
theorem any_id_iff (l : PhotoDB) (n : Nat) :
    l.any (fun q => q.id == n) = true ↔ n ∈ l.map Photo.id := by
  rw [List.any_eq_true]
  simp only [List.mem_map, beq_iff_eq]

/-- If every row carrying key `pk` is a primary of resident `r`, then
after `demoteOthers db r pk` the store has the claimed shape: the `pk`
row is a primary of `r` and no other photo of `r` is primary. -/
theorem demote_post (db : PhotoDB) (r pk : Nat)
    (hrow : ∀ x ∈ db, x.id = pk → x.is_primary = true ∧ x.resident = r) :
    ∀ q ∈ demoteOthers db r pk,
      (q.id = pk → q.is_primary = true ∧ q.resident = r) ∧
      (q.resident = r → q.id ≠ pk → q.is_primary = false) := by
  intro q hq
  simp only [demoteOthers, List.mem_map] at hq
  obtain ⟨x, hx, hfx⟩ := hq
  by_cases hc : x.resident = r ∧ x.is_primary = true ∧ x.id ≠ pk
  · rw [if_pos hc] at hfx
    subst hfx
    exact ⟨fun hid => absurd hid hc.2.2, fun _ _ => rfl⟩
  · rw [if_neg hc] at hfx
    subst hfx
    push_neg at hc
    refine ⟨fun hid => hrow x hx hid, fun hres hid => ?_⟩
    by_contra hp
    simp only [Bool.not_eq_false] at hp
    exact hid (hc hres hp)

/-- After replacing the row keyed `inst.id`, every row carrying that key
equals `inst`. -/
theorem replace_rows (db : PhotoDB) (inst : Photo) :
    ∀ q ∈ db.map (fun x => if x.id = inst.id then inst else x),
      q.id = inst.id → q = inst := by
  intro q hq hid
  simp only [List.mem_map] at hq
  obtain ⟨x, hx, hfx⟩ := hq
  by_cases hc : x.id = inst.id
  · rw [if_pos hc] at hfx
    exact hfx.symm
  · rw [if_neg hc] at hfx
    subst hfx
    exact absurd hid hc

/-- The UPDATE branch of the base save leaves the key list unchanged. -/
theorem superSave_ids (db : PhotoDB) (p : Photo)
    (h : db.any (fun q => q.id == p.id) = true) :
    (superSave db p).map Photo.id = db.map Photo.id := by
  unfold superSave
  rw [if_pos h, List.map_map]
  apply List.map_congr_left
  intro a _
  by_cases hc : a.id = p.id
  · simp [hc]
  · simp [hc]

/-- A demotion that touches nothing is the identity. -/
theorem demote_eq_self (db : PhotoDB) (r pk : Nat)
    (h : ∀ q ∈ db, ¬(q.resident = r ∧ q.is_primary = true ∧ q.id ≠ pk)) :
    demoteOthers db r pk = db := by
  unfold demoteOthers
  have hcg : ∀ q ∈ db,
      (if q.resident = r ∧ q.is_primary = true ∧ q.id ≠ pk then
        { q with is_primary := false } else q) = q :=
    fun q hq => if_neg (h q hq)
  rw [List.map_congr_left hcg]
  simp

/-- `set_primary` on an existing photo leaves the key list unchanged. -/
theorem set_primary_ids (db : PhotoDB) (pk : Nat) (photo : Photo)
    (hf : findPhoto db pk = some photo) :
    (PhotoViewSet.set_primary db pk).map Photo.id = db.map Photo.id := by
  have hpk : photo.id = pk := by simpa using List.find?_some hf
  have hmem : photo ∈ db := List.mem_of_find?_eq_some hf
  subst hpk
  unfold PhotoViewSet.set_primary
  rw [hf]
  simp only
  split
  · exact demote_ids db photo.resident photo.id
  · have h1 := demote_ids db photo.resident photo.id
    have hany : (demoteOthers db photo.resident photo.id).any
        (fun q => q.id == photo.id) = true := by
      rw [any_id_iff, h1]
      exact List.mem_map_of_mem Photo.id hmem
    have heq : Photo.save (demoteOthers db photo.resident photo.id)
        { photo with is_primary := true } =
        demoteOthers (superSave (demoteOthers db photo.resident photo.id)
          { photo with is_primary := true }) photo.resident photo.id := by
      simp [Photo.save]
    rw [heq, demote_ids,
      superSave_ids (demoteOthers db photo.resident photo.id)
        { photo with is_primary := true } (by exact hany), h1]

/-- Shape of the store after `set_primary`: the target photo is primary
and no other photo of the same resident is. -/
theorem set_primary_post (db : PhotoDB) (pk : Nat) (photo : Photo)
    (hn : NodupIds db) (hf : findPhoto db pk = some photo) :
    ∀ q ∈ PhotoViewSet.set_primary db pk,
      (q.id = pk → q.is_primary = true ∧ q.resident = photo.resident) ∧
      (q.resident = photo.resident → q.id ≠ pk → q.is_primary = false) := by
  have hpk : photo.id = pk := by simpa using List.find?_some hf
  have hmem : photo ∈ db := List.mem_of_find?_eq_some hf
  subst hpk
  unfold PhotoViewSet.set_primary
  rw [hf]
  simp only
  split
  · rename_i hprim
    apply demote_post
    intro x hx hxid
    have hx2 : x = photo := List.inj_on_of_nodup_map hn hx hmem hxid
    subst hx2
    exact ⟨hprim, rfl⟩
  · have h1 := demote_ids db photo.resident photo.id
    have hany : (demoteOthers db photo.resident photo.id).any
        (fun q => q.id == photo.id) = true := by
      rw [any_id_iff, h1]
      exact List.mem_map_of_mem Photo.id hmem
    have heq : Photo.save (demoteOthers db photo.resident photo.id)
        { photo with is_primary := true } =
        demoteOthers (superSave (demoteOthers db photo.resident photo.id)
          { photo with is_primary := true }) photo.resident photo.id := by
      simp [Photo.save]
    rw [heq]
    apply demote_post
    intro x hx hxid
    have hss : superSave (demoteOthers db photo.resident photo.id)
        { photo with is_primary := true } =
        (demoteOthers db photo.resident photo.id).map
          (fun q => if q.id = ({ photo with is_primary := true } : Photo).id then
            { photo with is_primary := true } else q) := by
      unfold superSave
      rw [if_pos hany]
    rw [hss] at hx
    have hx2 := replace_rows _ { photo with is_primary := true } x hx hxid
    subst hx2
    exact ⟨rfl, rfl⟩

/-- C3: for every existing photo, invoking `set_primary` twice in
succession yields the same end state as invoking it once — the target
photo is primary, all sibling photos of the same resident are not — and
the second invocation succeeds (the photo still exists, so `get_object`
does not 404). -/
theorem c3_set_primary_idempotent (db : PhotoDB) (pk : Nat) (photo : Photo)
    (hn : NodupIds db) (hf : findPhoto db pk = some photo) :
    PhotoViewSet.set_primary (PhotoViewSet.set_primary db pk) pk =
      PhotoViewSet.set_primary db pk ∧
    (findPhoto (PhotoViewSet.set_primary db pk) pk).isSome = true ∧
    (∀ q ∈ PhotoViewSet.set_primary db pk, q.id = pk → q.is_primary = true) ∧
    (∀ q ∈ PhotoViewSet.set_primary db pk,
      q.resident = photo.resident → q.id ≠ pk → q.is_primary = false) := by
  have hpk : photo.id = pk := by simpa using List.find?_some hf
  have hmem : photo ∈ db := List.mem_of_find?_eq_some hf
  have hpost := set_primary_post db pk photo hn hf
  have hids := set_primary_ids db pk photo hf
  set out := PhotoViewSet.set_primary db pk with hout
  have hsome : (findPhoto out pk).isSome = true := by
    unfold findPhoto
    rw [List.find?_isSome]
    have hpkmem : pk ∈ out.map Photo.id := by
      rw [hids, ← hpk]
      exact List.mem_map_of_mem Photo.id hmem
    simp only [List.mem_map] at hpkmem
    obtain ⟨x, hx, hxid⟩ := hpkmem
    exact ⟨x, hx, by simp [hxid]⟩
  refine ⟨?_, hsome, fun q hq hid => ((hpost q hq).1 hid).1,
    fun q hq => (hpost q hq).2⟩
  obtain ⟨photo2, hf2⟩ : ∃ p2, findPhoto out pk = some p2 := by
    cases hx : findPhoto out pk with
    | none => rw [hx] at hsome; cases hsome
    | some p2 => exact ⟨p2, rfl⟩
  have hp2 : photo2.id = pk := by simpa using List.find?_some hf2
  have hmem2 : photo2 ∈ out := List.mem_of_find?_eq_some hf2
  have h2prim : photo2.is_primary = true := ((hpost photo2 hmem2).1 hp2).1
  have h2res : photo2.resident = photo.resident := ((hpost photo2 hmem2).1 hp2).2
  unfold PhotoViewSet.set_primary
  rw [hf2]
  simp only
  rw [if_pos h2prim]
  apply demote_eq_self
  intro q hq hc
  have hfalse := (hpost q hq).2 (h2res ▸ hc.1) hc.2.2
  rw [hc.2.1] at hfalse
  cases hfalse

/-- Witness for C3: resident 0 owns primary photo 1 and secondary
photo 2; `set_primary` is invoked on photo 2. -/
theorem c3_set_primary_idempotent_witness :
    NodupIds [⟨1, 0, true⟩, ⟨2, 0, false⟩] ∧
    findPhoto [⟨1, 0, true⟩, ⟨2, 0, false⟩] 2 = some ⟨2, 0, false⟩ ∧
    (PhotoViewSet.set_primary (PhotoViewSet.set_primary [⟨1, 0, true⟩, ⟨2, 0, false⟩] 2) 2 =
      PhotoViewSet.set_primary [⟨1, 0, true⟩, ⟨2, 0, false⟩] 2 ∧
    (findPhoto (PhotoViewSet.set_primary [⟨1, 0, true⟩, ⟨2, 0, false⟩] 2) 2).isSome = true ∧
    (∀ q ∈ PhotoViewSet.set_primary [⟨1, 0, true⟩, ⟨2, 0, false⟩] 2,
      q.id = 2 → q.is_primary = true) ∧
    (∀ q ∈ PhotoViewSet.set_primary [⟨1, 0, true⟩, ⟨2, 0, false⟩] 2,
      q.resident = (⟨2, 0, false⟩ : Photo).resident → q.id ≠ 2 → q.is_primary = false)) :=
  ⟨by unfold NodupIds; decide, by decide,
    c3_set_primary_idempotent [⟨1, 0, true⟩, ⟨2, 0, false⟩] 2 ⟨2, 0, false⟩
      (by unfold NodupIds; decide) (by decide)⟩

/-! ### Isolation across residents (claim C4) -/

/-- A map whose function fixes every element selected by `pred` (and
never changes selection) leaves the filtered sublist unchanged. -/
theorem filter_map_eq_filter (l : List Photo) (f : Photo → Photo) (pred : Photo → Bool)
    (h : ∀ x ∈ l, pred (f x) = pred x ∧ (pred x = true → f x = x)) :
    (l.map f).filter pred = l.filter pred := by
  induction l with
  | nil => rfl
  | cons a t ih =>
    have ha := h a (List.mem_cons_self a t)
    have ht := ih (fun x hx => h x (List.mem_cons_of_mem a hx))
    by_cases hp : pred a = true
    · have hfa : pred (f a) = true := by rw [ha.1]; exact hp
      rw [List.map_cons, List.filter_cons_of_pos hfa, List.filter_cons_of_pos hp,
        ha.2 hp, ht]
    · have hfa : ¬pred (f a) = true := by rw [ha.1]; exact hp
      rw [List.map_cons, List.filter_cons_of_neg hfa, List.filter_cons_of_neg hp, ht]

/-- Demotion scoped to resident `r` leaves another resident's photo rows
untouched. -/
theorem demote_filter_other (db : PhotoDB) (r pk r2 : Nat) (h : r2 ≠ r) :
    (demoteOthers db r pk).filter (fun q => q.resident == r2) =
      db.filter (fun q => q.resident == r2) := by
  unfold demoteOthers
  apply filter_map_eq_filter
  intro x hx
  by_cases hc : x.resident = r ∧ x.is_primary = true ∧ x.id ≠ pk
  · rw [if_pos hc]
    refine ⟨rfl, fun hp => ?_⟩
    exfalso
    simp only [beq_iff_eq] at hp
    exact h (hp ▸ hc.1)
  · rw [if_neg hc]
    exact ⟨rfl, fun _ => rfl⟩

/-- Every row of a demoted store keeps the key and resident of a source
row. -/
theorem demote_mem_src (db : PhotoDB) (r pk : Nat) :
    ∀ q ∈ demoteOthers db r pk, ∃ x ∈ db, q.id = x.id ∧ q.resident = x.resident := by
  intro q hq
  simp only [demoteOthers, List.mem_map] at hq
  obtain ⟨x, hx, hfx⟩ := hq
  by_cases hc : x.resident = r ∧ x.is_primary = true ∧ x.id ≠ pk
  · rw [if_pos hc] at hfx
    subst hfx
    exact ⟨x, hx, rfl, rfl⟩
  · rw [if_neg hc] at hfx
    subst hfx
    exact ⟨x, hx, rfl, rfl⟩

/-- When the saved row belongs to `p.resident` (and any overwritten row
already did), the base save leaves another resident's rows untouched. -/
theorem superSave_filter_other (db : PhotoDB) (p : Photo) (r2 : Nat)
    (hne : r2 ≠ p.resident)
    (hrow : ∀ q ∈ db, q.id = p.id → q.resident = p.resident) :
    (superSave db p).filter (fun q => q.resident == r2) =
      db.filter (fun q => q.resident == r2) := by
  unfold superSave
  split
  · apply filter_map_eq_filter
    intro x hx
    by_cases hc : x.id = p.id
    · rw [if_pos hc]
      have hres : x.resident = p.resident := hrow x hx hc
      refine ⟨by rw [hres], fun hp => ?_⟩
      exfalso
      simp only [beq_iff_eq] at hp
      exact hne (by rw [← hp, hres])
    · rw [if_neg hc]
      exact ⟨rfl, fun _ => rfl⟩
  · rw [List.filter_append]
    have hp0 : [p].filter (fun q => q.resident == r2) = [] := by
      simp [Ne.symm hne]
    rw [hp0, List.append_nil]

/-- `Photo.save` of a photo of resident `r1` leaves another resident's
rows untouched. -/
theorem save_filter_other (db : PhotoDB) (p : Photo) (r2 : Nat)
    (hne : r2 ≠ p.resident)
    (hrow : ∀ q ∈ db, q.id = p.id → q.resident = p.resident) :
    (Photo.save db p).filter (fun q => q.resident == r2) =
      db.filter (fun q => q.resident == r2) := by
  simp only [Photo.save]
  split
  · rw [demote_filter_other _ _ _ _ hne, superSave_filter_other db p r2 hne hrow]
  · exact superSave_filter_other db p r2 hne hrow

/-- `set_primary` on a photo of resident `r1` leaves another resident's
rows untouched. -/
theorem set_primary_filter_other (db : PhotoDB) (pk : Nat) (photo : Photo) (r2 : Nat)
    (hn : NodupIds db) (hf : findPhoto db pk = some photo)
    (hne : r2 ≠ photo.resident) :
    (PhotoViewSet.set_primary db pk).filter (fun q => q.resident == r2) =
      db.filter (fun q => q.resident == r2) := by
  have hpk : photo.id = pk := by simpa using List.find?_some hf
  have hmem : photo ∈ db := List.mem_of_find?_eq_some hf
  subst hpk
  unfold PhotoViewSet.set_primary
  rw [hf]
  simp only
  split
  · exact demote_filter_other _ _ _ _ hne
  · have hrow1 : ∀ q ∈ demoteOthers db photo.resident photo.id,
        q.id = ({ photo with is_primary := true } : Photo).id →
        q.resident = ({ photo with is_primary := true } : Photo).resident := by
      intro q hq hid
      obtain ⟨x, hx, hqid, hqres⟩ := demote_mem_src db photo.resident photo.id q hq
      have hx2 : x = photo := List.inj_on_of_nodup_map hn hx hmem (by rw [← hqid]; exact hid)
      rw [hqres, hx2]
    rw [save_filter_other (demoteOthers db photo.resident photo.id)
      { photo with is_primary := true } r2 (by exact hne) hrow1,
      demote_filter_other _ _ _ _ hne]

/-- `PhotoSerializer.update` on a photo of resident `r1` leaves another
resident's rows untouched. -/
theorem serializer_update_filter_other (db : PhotoDB) (pk : Nat) (photo : Photo)
    (b : Bool) (r2 : Nat) (hn : NodupIds db) (hf : findPhoto db pk = some photo)
    (hne : r2 ≠ photo.resident) :
    (PhotoSerializer.update db pk b).filter (fun q => q.resident == r2) =
      db.filter (fun q => q.resident == r2) := by
  have hpk : photo.id = pk := by simpa using List.find?_some hf
  have hmem : photo ∈ db := List.mem_of_find?_eq_some hf
  subst hpk
  unfold PhotoSerializer.update
  rw [hf]
  simp only
  have hrow : ∀ q ∈ db, q.id = ({ photo with is_primary := b } : Photo).id →
      q.resident = ({ photo with is_primary := b } : Photo).resident := by
    intro q hq hid
    have hq2 : q = photo := List.inj_on_of_nodup_map hn hq hmem (by exact hid)
    rw [hq2]
  split
  · rw [demote_filter_other _ _ _ _ hne,
      save_filter_other db { photo with is_primary := b } r2 (by exact hne) hrow]
  · exact save_filter_other db { photo with is_primary := b } r2 (by exact hne) hrow

/-- The nested photo-create view for a photo of resident `r1` leaves
another resident's rows untouched. -/
theorem photos_post_filter_other (db : PhotoDB) (p : Photo) (r2 : Nat)
    (hne : r2 ≠ p.resident)
    (hrow : ∀ q ∈ db, q.id = p.id → q.resident = p.resident) :
    (ResidentViewSet.photos_post db p).filter (fun q => q.resident == r2) =
      db.filter (fun q => q.resident == r2) := by
  simp only [ResidentViewSet.photos_post]
  split
  · rw [demote_filter_other _ _ _ _ hne, save_filter_other _ _ _ hne hrow]
  · exact save_filter_other _ _ _ hne hrow

/-- C4: for distinct residents R1 and R2, setting a photo of R1 primary
through any write path leaves R2's photo rows — in particular their
primary flags — unchanged.  For the model-save and nested-create paths
the hypothesis `∀ q ∈ db, q.id = p.id → q.resident = p.resident` states
that the written photo is a photo "of R1", i.e. does not reassign a row
of another resident. -/
theorem c4_isolation (db : PhotoDB) (r2 : Nat) (hn : NodupIds db) :
    (∀ pk photo, findPhoto db pk = some photo → r2 ≠ photo.resident →
      (PhotoViewSet.set_primary db pk).filter (fun q => q.resident == r2) =
        db.filter (fun q => q.resident == r2)) ∧
    (∀ p : Photo, r2 ≠ p.resident →
      (∀ q ∈ db, q.id = p.id → q.resident = p.resident) →
      (Photo.save db p).filter (fun q => q.resident == r2) =
        db.filter (fun q => q.resident == r2)) ∧
    (∀ pk photo b, findPhoto db pk = some photo → r2 ≠ photo.resident →
      (PhotoSerializer.update db pk b).filter (fun q => q.resident == r2) =
        db.filter (fun q => q.resident == r2)) ∧
    (∀ p : Photo, r2 ≠ p.resident →
      (∀ q ∈ db, q.id = p.id → q.resident = p.resident) →
      (ResidentViewSet.photos_post db p).filter (fun q => q.resident == r2) =
        db.filter (fun q => q.resident == r2)) :=
  ⟨fun pk photo hf hne => set_primary_filter_other db pk photo r2 hn hf hne,
   fun p hne hrow => save_filter_other db p r2 hne hrow,
   fun pk photo b hf hne => serializer_update_filter_other db pk photo b r2 hn hf hne,
   fun p hne hrow => photos_post_filter_other db p r2 hne hrow⟩

/-- Witness for C4: resident 0 owns photos 1 and 2, resident 1 owns
primary photo 3; promoting photo 2 of resident 0 through each path leaves
resident 1's row untouched. -/
theorem c4_isolation_witness :
    NodupIds [⟨1, 0, true⟩, ⟨2, 0, false⟩, ⟨3, 1, true⟩] ∧
    (PhotoViewSet.set_primary [⟨1, 0, true⟩, ⟨2, 0, false⟩, ⟨3, 1, true⟩] 2).filter
      (fun q => q.resident == 1) =
      ([⟨1, 0, true⟩, ⟨2, 0, false⟩, ⟨3, 1, true⟩] : PhotoDB).filter
        (fun q => q.resident == 1) ∧
    (Photo.save [⟨1, 0, true⟩, ⟨2, 0, false⟩, ⟨3, 1, true⟩] ⟨2, 0, true⟩).filter
      (fun q => q.resident == 1) =
      ([⟨1, 0, true⟩, ⟨2, 0, false⟩, ⟨3, 1, true⟩] : PhotoDB).filter
        (fun q => q.resident == 1) ∧
    (PhotoSerializer.update [⟨1, 0, true⟩, ⟨2, 0, false⟩, ⟨3, 1, true⟩] 2 true).filter
      (fun q => q.resident == 1) =
      ([⟨1, 0, true⟩, ⟨2, 0, false⟩, ⟨3, 1, true⟩] : PhotoDB).filter
        (fun q => q.resident == 1) ∧
    (ResidentViewSet.photos_post [⟨1, 0, true⟩, ⟨2, 0, false⟩, ⟨3, 1, true⟩]
      ⟨4, 0, true⟩).filter (fun q => q.resident == 1) =
      ([⟨1, 0, true⟩, ⟨2, 0, false⟩, ⟨3, 1, true⟩] : PhotoDB).filter
        (fun q => q.resident == 1) := by
  have hn : NodupIds [⟨1, 0, true⟩, ⟨2, 0, false⟩, ⟨3, 1, true⟩] := by
    unfold NodupIds; decide
  have h := c4_isolation [⟨1, 0, true⟩, ⟨2, 0, false⟩, ⟨3, 1, true⟩] 1 hn
  exact ⟨hn,
    h.1 2 ⟨2, 0, false⟩ (by decide) (by decide),
    h.2.1 ⟨2, 0, true⟩ (by decide) (by decide),
    h.2.2.1 2 ⟨2, 0, false⟩ true (by decide) (by decide),
    h.2.2.2 ⟨4, 0, true⟩ (by decide) (by decide)⟩

/-! ### Deleting the primary photo (claim C10) -/

/-- Two distinct members both satisfying `pred` force a count of at
least two. -/
theorem two_le_countP (l : List Photo) (pred : Photo → Bool) (a b : Photo)
    (ha : a ∈ l) (hb : b ∈ l) (hne : a ≠ b)
    (hpa : pred a = true) (hpb : pred b = true) : 2 ≤ l.countP pred := by
  induction l with
  | nil => cases ha
  | cons x t ih =>
    rw [List.countP_cons]
    rcases List.mem_cons.mp ha with hax | hat
    · subst hax
      have hbt : b ∈ t := by
        rcases List.mem_cons.mp hb with hbx | hbt
        · exact absurd hbx.symm hne
        · exact hbt
      have h1 : 0 < t.countP pred := List.countP_pos_iff.mpr ⟨b, hbt, hpb⟩
      rw [if_pos hpa]
      omega
    · rcases List.mem_cons.mp hb with hbx | hbt
      · subst hbx
        have h1 : 0 < t.countP pred := List.countP_pos_iff.mpr ⟨a, hat, hpa⟩
        rw [if_pos hpb]
        omega
      · have h2 := ih hat hbt
        omega

/-- C10: deleting a resident's current primary photo removes exactly that
row — every remaining photo survives unchanged, none is promoted — and
the resident's derived `primary_photo` is none afterwards. -/
theorem c10_destroy_primary_no_promotion (db : PhotoDB) (p : Photo)
    (hmem : p ∈ db) (hp : p.is_primary = true)
    (hinv : primaryCount db p.resident ≤ 1) :
    (∀ q, q ∈ PhotoViewSet.destroy db p.id ↔ q ∈ db ∧ q.id ≠ p.id) ∧
    Resident.primary_photo (PhotoViewSet.destroy db p.id) p.resident = none := by
  constructor
  · intro q
    simp [PhotoViewSet.destroy, List.mem_filter, bne_iff_ne]
  · unfold Resident.primary_photo PhotoViewSet.destroy
    rw [List.find?_eq_none]
    intro x hx hxp
    rw [List.mem_filter] at hx
    obtain ⟨hx1, hxres⟩ := hx
    rw [List.mem_filter] at hx1
    obtain ⟨hxmem, hxid'⟩ := hx1
    have hxid : x.id ≠ p.id := by simpa using hxid'
    have hne2 : p ≠ x := fun he => hxid (by rw [← he])
    have h2 := two_le_countP db
      (fun q => q.resident == p.resident && q.is_primary) p x hmem hxmem hne2
      (by simp [hp]) (by simp [hxp, hxres])
    unfold primaryCount at hinv
    omega

/-- Witness for C10: resident 0 owns primary photo 1 and secondary
photo 2; photo 1 is deleted. -/
theorem c10_destroy_primary_no_promotion_witness :
    (⟨1, 0, true⟩ : Photo) ∈ ([⟨1, 0, true⟩, ⟨2, 0, false⟩] : PhotoDB) ∧
    primaryCount [⟨1, 0, true⟩, ⟨2, 0, false⟩] 0 ≤ 1 ∧
    ((∀ q, q ∈ PhotoViewSet.destroy [⟨1, 0, true⟩, ⟨2, 0, false⟩] 1 ↔
        q ∈ ([⟨1, 0, true⟩, ⟨2, 0, false⟩] : PhotoDB) ∧ q.id ≠ 1) ∧
      Resident.primary_photo (PhotoViewSet.destroy [⟨1, 0, true⟩, ⟨2, 0, false⟩] 1) 0 = none) :=
  ⟨by decide, by decide,
    c10_destroy_primary_no_promotion [⟨1, 0, true⟩, ⟨2, 0, false⟩] ⟨1, 0, true⟩
      (by decide) (by decide) (by decide)⟩

/-- C5: access-control outcomes.  An anonymous request to list residents
fails the permission check and is denied with 401/403, so no data is
returned; a staff actor may destroy a resident; an authenticated
non-staff actor's destroy is denied with 403; an authenticated non-staff
actor's admin summary request is denied with 403. -/
theorem c5_access_control :
    (ResidentPermissions.has_permission ⟨false, false⟩ .list = false ∧
      (residentActionStatus ⟨false, false⟩ .list = 401 ∨
       residentActionStatus ⟨false, false⟩ .list = 403) ∧
      residentActionStatus ⟨false, false⟩ .list ≠ 200) ∧
    ResidentPermissions.has_permission ⟨true, true⟩ .destroy = true ∧
    residentActionStatus ⟨true, false⟩ .destroy = 403 ∧
    adminSummaryStatus ⟨true, false⟩ = 403 := by
  decide

/-- C7: registering an already-taken username yields 400 and leaves the
account store unchanged; registering a fresh, non-empty username with a
non-empty password yields 201 and exactly one new account. -/
theorem c7_register (users : List String) (u p : String) :
    (users.contains u = true →
      (register users (some u) (some p)).statusCode = 400 ∧
      (register users (some u) (some p)).users = users) ∧
    (users.contains u = false → u ≠ "" → p ≠ "" →
      (register users (some u) (some p)).statusCode = 201 ∧
      (register users (some u) (some p)).users = users ++ [u] ∧
      (register users (some u) (some p)).users.length = users.length + 1) := by
  constructor
  · intro hc
    simp only [register]
    by_cases h1 : (u.isEmpty || p.isEmpty) = true
    · rw [if_pos h1]
      exact ⟨rfl, rfl⟩
    · rw [if_neg h1, if_pos hc]
      exact ⟨rfl, rfl⟩
  · intro hc hu hp2
    have hue : u.isEmpty = false := by
      cases he : u.isEmpty
      · rfl
      · exact absurd ((String.isEmpty_iff u).mp he) hu
    have hpe : p.isEmpty = false := by
      cases he : p.isEmpty
      · rfl
      · exact absurd ((String.isEmpty_iff p).mp he) hp2
    simp only [register]
    rw [if_neg (by simp [hue, hpe]), if_neg (by rw [hc]; simp)]
    exact ⟨rfl, rfl, by simp⟩

/-- Witness for C7: the store holds user "bob"; re-registering "bob"
fails with 400, registering "alice" succeeds with 201. -/
theorem c7_register_witness :
    (["bob"].contains "bob" = true ∧
      ((register ["bob"] (some "bob") (some "pw")).statusCode = 400 ∧
       (register ["bob"] (some "bob") (some "pw")).users = ["bob"])) ∧
    (["bob"].contains "alice" = false ∧
      ((register ["bob"] (some "alice") (some "pw")).statusCode = 201 ∧
       (register ["bob"] (some "alice") (some "pw")).users = ["bob", "alice"] ∧
       (register ["bob"] (some "alice") (some "pw")).users.length = ["bob"].length + 1)) :=
  ⟨⟨by decide, (c7_register ["bob"] "bob" "pw").1 (by decide)⟩,
   ⟨by decide, (c7_register ["bob"] "alice" "pw").2 (by decide) (by decide) (by decide)⟩⟩

/-- C8 counterexample: a registration with a missing password — a
validation error whose offending field is `password` — is answered with
400 whose body is keyed by the constant `detail`, not by the offending
field name. -/
theorem c8_not_field_keyed_counterexample :
    (register [] (some "alice") none).statusCode = 400 ∧
    (register [] (some "alice") none).body.map Prod.fst = ["detail"] ∧
    (["username", "password"].contains "detail") = false := by
  decide

/-- C8 (amended): every validation error of the registration endpoint
(missing or empty required field, duplicate username) is surfaced as a
400 response, but its body is keyed by the constant `detail` carrying a
human-readable message — not by the offending field names.  (The
serializer-backed photo-create path does return DRF's field-keyed
`serializer.errors`; the registration endpoint does not.) -/
theorem c8_register_errors_detail_keyed (users : List String) (u p : Option String)
    (h : (register users u p).statusCode = 400) :
    (register users u p).body.map Prod.fst = ["detail"] := by
  cases u with
  | none => rfl
  | some a =>
    cases p with
    | none => rfl
    | some b =>
      simp only [register] at h ⊢
      split_ifs at h ⊢
      · rfl
      · rfl
      · simp at h

/-- Witness for the amended C8: registration with both fields missing. -/
theorem c8_register_errors_detail_keyed_witness :
    (register [] none none).statusCode = 400 ∧
    (register [] none none).body.map Prod.fst = ["detail"] :=
  ⟨by decide, c8_register_errors_detail_keyed [] none none (by decide)⟩

/-! ### Ordering lemmas for the resident list (claims C6, C9) -/

/-- Characters with equal code points are equal. -/
theorem char_toNat_inj (a b : Char) (h : a.toNat = b.toNat) : a = b :=
  Char.ext (UInt32.toNat.inj h)

/-- Strings with equal character lists are equal. -/
theorem string_data_inj (s t : String) (h : s.data = t.data) : s = t := by
  cases s
  cases t
  simp_all

/-- `lexLe` is total. -/
theorem lexLe_total (x y : List Char) : lexLe x y = true ∨ lexLe y x = true := by
  induction x generalizing y with
  | nil => left; rfl
  | cons a as ih =>
    cases y with
    | nil => right; rfl
    | cons b bs =>
      by_cases hab : a = b
      · subst hab
        simp only [lexLe, if_pos rfl]
        exact ih bs
      · have hba : ¬(b = a) := fun h => hab h.symm
        simp only [lexLe, if_neg hab, if_neg hba]
        rcases Nat.le_total a.toNat b.toNat with h | h
        · left
          exact decide_eq_true h
        · right
          exact decide_eq_true h

/-- `lexLe` is transitive. -/
theorem lexLe_trans (x y z : List Char) (h1 : lexLe x y = true)
    (h2 : lexLe y z = true) : lexLe x z = true := by
  induction x generalizing y z with
  | nil => rfl
  | cons a as ih =>
    cases y with
    | nil => simp [lexLe] at h1
    | cons b bs =>
      cases z with
      | nil => simp [lexLe] at h2
      | cons c cs =>
        by_cases hab : a = b
        · subst hab
          simp only [lexLe, if_pos rfl] at h1
          by_cases hac : a = c
          · subst hac
            simp only [lexLe, if_pos rfl] at h2 ⊢
            exact ih bs cs h1 h2
          · simp only [lexLe, if_neg hac] at h2 ⊢
            exact h2
        · by_cases hbc : b = c
          · subst hbc
            simp only [lexLe, if_neg hab] at h1 ⊢
            exact h1
          · simp only [lexLe, if_neg hab] at h1
            simp only [lexLe, if_neg hbc] at h2
            have h1' := of_decide_eq_true h1
            have h2' := of_decide_eq_true h2
            by_cases hac : a = c
            · subst hac
              exact absurd (char_toNat_inj a b (Nat.le_antisymm h1' h2')) hab
            · simp only [lexLe, if_neg hac]
              exact decide_eq_true (Nat.le_trans h1' h2')

/-- `lexLe` is antisymmetric. -/
theorem lexLe_antisymm (x y : List Char) (h1 : lexLe x y = true)
    (h2 : lexLe y x = true) : x = y := by
  induction x generalizing y with
  | nil =>
    cases y with
    | nil => rfl
    | cons b bs => simp [lexLe] at h2
  | cons a as ih =>
    cases y with
    | nil => simp [lexLe] at h1
    | cons b bs =>
      by_cases hab : a = b
      · subst hab
        simp only [lexLe, if_pos rfl] at h1 h2
        rw [ih bs h1 h2]
      · have hba : ¬(b = a) := fun h => hab h.symm
        simp only [lexLe, if_neg hab] at h1
        simp only [lexLe, if_neg hba] at h2
        exact absurd
          (char_toNat_inj a b (Nat.le_antisymm (of_decide_eq_true h1) (of_decide_eq_true h2)))
          hab

/-- `strLe` is total. -/
theorem strLe_total (a b : String) : strLe a b = true ∨ strLe b a = true :=
  lexLe_total a.data b.data

/-- `strLe` is transitive. -/
theorem strLe_trans (a b c : String) (h1 : strLe a b = true)
    (h2 : strLe b c = true) : strLe a c = true :=
  lexLe_trans a.data b.data c.data h1 h2

/-- `strLe` is antisymmetric. -/
theorem strLe_antisymm (a b : String) (h1 : strLe a b = true)
    (h2 : strLe b a = true) : a = b :=
  string_data_inj a b (lexLe_antisymm a.data b.data h1 h2)

/-- The two-field comparator is total. -/
theorem residentLE_total (a b : Resident) :
    residentLE a b = true ∨ residentLE b a = true := by
  unfold residentLE
  by_cases h : a.last_name = b.last_name
  · rw [if_pos h, if_pos h.symm]
    exact strLe_total _ _
  · rw [if_neg h, if_neg (fun hh => h hh.symm)]
    exact strLe_total _ _

/-- The two-field comparator is transitive. -/
theorem residentLE_trans (a b c : Resident) (h1 : residentLE a b = true)
    (h2 : residentLE b c = true) : residentLE a c = true := by
  unfold residentLE at h1 h2 ⊢
  by_cases hab : a.last_name = b.last_name <;>
    by_cases hbc : b.last_name = c.last_name
  · rw [if_pos hab] at h1
    rw [if_pos hbc] at h2
    rw [if_pos (hab.trans hbc)]
    exact strLe_trans _ _ _ h1 h2
  · rw [if_pos hab] at h1
    rw [if_neg hbc] at h2
    rw [if_neg (fun h => hbc (hab ▸ h)), hab]
    exact h2
  · rw [if_neg hab] at h1
    rw [if_pos hbc] at h2
    rw [if_neg (fun h => hab (h.trans hbc.symm)), ← hbc]
    exact h1
  · rw [if_neg hab] at h1
    rw [if_neg hbc] at h2
    by_cases hac : a.last_name = c.last_name
    · exfalso
      rw [← hac] at h2
      exact hab (strLe_antisymm _ _ h1 h2)
    · rw [if_neg hac]
      exact strLe_trans _ _ _ h1 h2

/-- Inserting into the insertion sort permutes a cons. -/
theorem orderInsert_perm (x : Resident) (l : List Resident) :
    (orderInsert x l).Perm (x :: l) := by
  induction l with
  | nil => exact List.Perm.refl _
  | cons y t ih =>
    simp only [orderInsert]
    split
    · exact List.Perm.refl _
    · exact (List.Perm.cons y ih).trans (List.Perm.swap x y t)

/-- Membership after insertion. -/
theorem mem_orderInsert (z x : Resident) (l : List Resident) :
    z ∈ orderInsert x l ↔ z = x ∨ z ∈ l := by
  rw [(orderInsert_perm x l).mem_iff]
  exact List.mem_cons

/-- `orderBy` permutes its input. -/
theorem orderBy_perm (l : List Resident) : (orderBy l).Perm l := by
  induction l with
  | nil => exact List.Perm.refl _
  | cons x t ih =>
    exact (orderInsert_perm x (orderBy t)).trans (List.Perm.cons x ih)

/-- Insertion preserves sortedness. -/
theorem orderInsert_sorted (x : Resident) (l : List Resident)
    (h : l.Pairwise (fun a b => residentLE a b = true)) :
    (orderInsert x l).Pairwise (fun a b => residentLE a b = true) := by
  induction l with
  | nil => simp [orderInsert]
  | cons y t ih =>
    rw [List.pairwise_cons] at h
    simp only [orderInsert]
    split
    · rename_i hxy
      rw [List.pairwise_cons]
      refine ⟨?_, List.pairwise_cons.mpr h⟩
      intro z hz
      rcases List.mem_cons.mp hz with hzy | hzt
      · subst hzy
        exact hxy
      · exact residentLE_trans x y z hxy (h.1 z hzt)
    · rename_i hxy
      have hyx : residentLE y x = true := by
        rcases residentLE_total x y with hh | hh
        · exact absurd hh hxy
        · exact hh
      rw [List.pairwise_cons]
      refine ⟨?_, ih h.2⟩
      intro z hz
      rcases (mem_orderInsert z x t).mp hz with hzx | hzt
      · subst hzx
        exact hyx
      · exact h.1 z hzt

/-- `orderBy` sorts by the two-field comparator. -/
theorem orderBy_sorted (l : List Resident) :
    (orderBy l).Pairwise (fun a b => residentLE a b = true) := by
  induction l with
  | nil => simp [orderBy]
  | cons x t ih => exact orderInsert_sorted x (orderBy t) ih

/-- The executable comparison agrees with strict code-point
lexicographic order or equality. -/
theorem lexLe_iff_lex (x y : List Char) :
    lexLe x y = true ↔
    (List.Lex (fun c d : Char => c.toNat < d.toNat) x y ∨ x = y) := by
  induction x generalizing y with
  | nil =>
    cases y with
    | nil => simp [lexLe]
    | cons b bs =>
      constructor
      · intro _
        exact Or.inl List.Lex.nil
      · intro _
        rfl
  | cons a as ih =>
    cases y with
    | nil =>
      constructor
      · intro h
        simp [lexLe] at h
      · intro h
        rcases h with h | h
        · cases h
        · exact absurd h (List.cons_ne_nil a as)
    | cons b bs =>
      by_cases hab : a = b
      · subst hab
        simp only [lexLe, if_true]
        rw [ih bs]
        constructor
        · intro h
          rcases h with h | h
          · exact Or.inl (List.Lex.cons h)
          · exact Or.inr (by rw [h])
        · intro h
          rcases h with h | h
          · cases h with
            | cons h2 => exact Or.inl h2
            | rel h2 => exact absurd h2 (Nat.lt_irrefl _)
          · injection h with h1 h2
            exact Or.inr h2
      · simp only [lexLe, if_neg hab]
        constructor
        · intro h
          have h2 := of_decide_eq_true h
          have hlt : a.toNat < b.toNat := by
            rcases Nat.lt_or_ge a.toNat b.toNat with hh | hh
            · exact hh
            · exact absurd (char_toNat_inj a b (Nat.le_antisymm h2 hh)) hab
          exact Or.inl (List.Lex.rel hlt)
        · intro h
          rcases h with h | h
          · cases h with
            | cons h2 => exact absurd rfl hab
            | rel h2 => exact decide_eq_true (Nat.le_of_lt h2)
          · injection h with h1 h2
            exact absurd h1 hab

/-- Code-point lexicographic order is irreflexive. -/
theorem lex_toNat_irrefl (x : List Char) :
    ¬List.Lex (fun c d : Char => c.toNat < d.toNat) x x := by
  induction x with
  | nil =>
    intro h
    cases h
  | cons a as ih =>
    intro h
    cases h with
    | cons h2 => exact ih h2
    | rel h2 => exact Nat.lt_irrefl _ h2

/-- The executable comparator agrees with the claim-side ordering. -/
theorem residentLE_iff_specOrder (a b : Resident) :
    residentLE a b = true ↔ specOrder a b := by
  unfold residentLE specOrder strLe
  by_cases h : a.last_name = b.last_name
  · rw [if_pos h, lexLe_iff_lex]
    constructor
    · intro hh
      rcases hh with hh | hh
      · exact Or.inr ⟨h, Or.inl hh⟩
      · exact Or.inr ⟨h, Or.inr (string_data_inj _ _ hh)⟩
    · intro hh
      rcases hh with hh | hh
      · exfalso
        rw [h] at hh
        exact lex_toNat_irrefl _ hh
      · rcases hh.2 with hh2 | hh2
        · exact Or.inl hh2
        · exact Or.inr (by rw [hh2])
  · rw [if_neg h, lexLe_iff_lex]
    constructor
    · intro hh
      rcases hh with hh | hh
      · exact Or.inl hh
      · exact absurd (string_data_inj _ _ hh) h
    · intro hh
      rcases hh with hh | hh
      · exact Or.inl hh
      · exact absurd hh.1 h

/-! ### Filter correctness (claims C6, C9) -/

/-- The executable substring test agrees with the infix relation. -/
theorem containsSub_correct (n h : List Char) :
    containsSub n h = true ↔ n <:+: h := by
  induction h with
  | nil =>
    simp only [containsSub, List.isEmpty_iff]
    constructor
    · intro hh
      rw [hh]
    · intro hh
      rcases hh with ⟨s, t, hst⟩
      rcases List.append_eq_nil.mp hst with ⟨h1, _⟩
      exact (List.append_eq_nil.mp h1).2
  | cons c t ih =>
    simp only [containsSub, Bool.or_eq_true, List.isPrefixOf_iff_prefix, ih,
      List.infix_cons_iff]

/-- The empty string is a case-insensitive substring of everything. -/
theorem substrCI_empty (hay : String) : substrCI "" hay := by
  unfold substrCI
  have h0 : lowerChars "" = [] := rfl
  rw [h0]
  exact List.nil_infix

/-- The free-text filter agrees with the claim's disjunction of
case-insensitive substring tests. -/
theorem qMatches_iff (s : String) (r : Resident) :
    qMatches s r = true ↔
    (substrCI s r.first_name ∨ substrCI s r.last_name ∨ substrCI s r.apartment ∨
      substrCI s r.phone ∨ substrCI s r.email) := by
  unfold qMatches icontains substrCI
  simp [containsSub_correct, or_assoc]

/-- The `q` clause of the code predicate agrees with the claim's clause:
a skipped empty `q` coincides with the vacuous substring test. -/
theorem q_component (qo : Option String) (r : Resident) :
    qClause qo r = true ↔
    (∀ s, qo = some s →
      (substrCI s r.first_name ∨ substrCI s r.last_name ∨ substrCI s r.apartment ∨
        substrCI s r.phone ∨ substrCI s r.email)) := by
  cases qo with
  | none => simp [qClause]
  | some s =>
    simp only [qClause]
    by_cases hse : s.isEmpty = true
    · have hs : s = "" := (String.isEmpty_iff s).mp hse
      subst hs
      rw [if_pos hse]
      constructor
      · intro _ s2 hs2
        cases hs2
        exact Or.inl (substrCI_empty _)
      · intro _
        rfl
    · rw [if_neg hse]
      rw [qMatches_iff]
      constructor
      · intro hh s2 hs2
        cases hs2
        exact hh
      · intro hh
        exact hh s rfl

/-- The `apartment` clause agrees with the claim's exact-match clause as
long as the supplied value is non-empty. -/
theorem apartment_component (ao : Option String) (r : Resident)
    (hap : ∀ s, ao = some s → s ≠ "") :
    apartmentClause ao r = true ↔ (∀ s, ao = some s → r.apartment = s) := by
  cases ao with
  | none => simp [apartmentClause]
  | some s =>
    have hs : s ≠ "" := hap s rfl
    have hse : s.isEmpty = false := by
      cases he : s.isEmpty
      · rfl
      · exact absurd ((String.isEmpty_iff s).mp he) hs
    simp only [apartmentClause, hse]
    rw [if_neg (by simp)]
    constructor
    · intro hh s2 hs2
      cases hs2
      exact beq_iff_eq.mp hh
    · intro hh
      exact beq_iff_eq.mpr (hh s rfl)

/-- The `is_active` clause agrees with the claim's parsed-boolean
clause. -/
theorem is_active_component (io : Option String) (r : Resident) :
    isActiveClause io r = true ↔
    (∀ s, io = some s → r.is_active = parseActiveParam s) := by
  cases io with
  | none => simp [isActiveClause]
  | some s =>
    simp only [isActiveClause]
    constructor
    · intro hh s2 hs2
      cases hs2
      exact beq_iff_eq.mp hh
    · intro hh
      exact beq_iff_eq.mpr (hh s rfl)

/-- The code's row predicate coincides with the claim's conjunction,
provided a supplied apartment parameter is non-empty. -/
theorem residentPred_iff (ps : ListParams) (r : Resident)
    (hap : ∀ s, ps.apartment = some s → s ≠ "") :
    residentPred ps r = true ↔ claimMatches ps r := by
  unfold residentPred claimMatches
  rw [Bool.and_eq_true, Bool.and_eq_true]
  rw [q_component ps.q r, apartment_component ps.apartment r hap,
    is_active_component ps.is_active r]
  rw [and_assoc]

/-- C6 counterexample: with the apartment parameter supplied as the
empty string, the code ignores the filter (Python truthiness) and
returns a resident whose apartment is "4B", while the claim's
conjunction-of-supplied-filters (exact match on apartment, per the spec)
rules that resident out: the operation does not return "exactly the
residents satisfying the conjunction of the supplied filters". -/
theorem c6_empty_apartment_counterexample :
    ResidentViewSet.get_queryset [⟨0, "Ann", "Lee", "4B", "555", "a@x.com", true⟩]
      ⟨none, some "", none⟩ =
      [⟨0, "Ann", "Lee", "4B", "555", "a@x.com", true⟩] ∧
    ¬claimMatches ⟨none, some "", none⟩
      ⟨0, "Ann", "Lee", "4B", "555", "a@x.com", true⟩ := by
  constructor
  · rfl
  · intro h
    have h2 := h.2.1 "" rfl
    exact absurd h2 (by decide)

/-- C6 (amended): provided every supplied apartment parameter is
non-empty (an empty apartment string is ignored by the code — claim C9),
the resident list operation returns exactly the stored residents
satisfying the conjunction of the supplied filters — q as a
case-insensitive substring of at least one of first name, last name,
apartment, phone, email; apartment as exact match; is_active as the
parsed boolean; an absent parameter imposing no restriction — and the
result is always sorted by last name then first name, ascending. -/
theorem c6_filter_correct (db : List Resident) (ps : ListParams)
    (hap : ∀ s, ps.apartment = some s → s ≠ "") :
    (∀ r, r ∈ ResidentViewSet.get_queryset db ps ↔ r ∈ db ∧ claimMatches ps r) ∧
    (ResidentViewSet.get_queryset db ps).Pairwise specOrder := by
  constructor
  · intro r
    unfold ResidentViewSet.get_queryset
    rw [(orderBy_perm _).mem_iff, List.mem_filter, residentPred_iff ps r hap]
  · have h := orderBy_sorted (db.filter (residentPred ps))
    exact h.imp (fun hab => (residentLE_iff_specOrder _ _).mp hab)

/-- Witness for the amended C6: the spec's own example data — Ann Lee
4B, Bob Lee 4B, Cat Smith 2A — with `q=lee` and `apartment=4B`. -/
theorem c6_filter_correct_witness :
    (∀ s, (some "4B" : Option String) = some s → s ≠ "") ∧
    ((∀ r, r ∈ ResidentViewSet.get_queryset
        [⟨0, "Cat", "Smith", "2A", "555", "c@x.com", true⟩,
         ⟨1, "Bob", "Lee", "4B", "556", "b@x.com", true⟩,
         ⟨2, "Ann", "Lee", "4B", "557", "a@x.com", true⟩]
        ⟨some "lee", some "4B", none⟩ ↔
      r ∈ ([⟨0, "Cat", "Smith", "2A", "555", "c@x.com", true⟩,
            ⟨1, "Bob", "Lee", "4B", "556", "b@x.com", true⟩,
            ⟨2, "Ann", "Lee", "4B", "557", "a@x.com", true⟩] : List Resident) ∧
        claimMatches ⟨some "lee", some "4B", none⟩ r) ∧
     (ResidentViewSet.get_queryset
        [⟨0, "Cat", "Smith", "2A", "555", "c@x.com", true⟩,
         ⟨1, "Bob", "Lee", "4B", "556", "b@x.com", true⟩,
         ⟨2, "Ann", "Lee", "4B", "557", "a@x.com", true⟩]
        ⟨some "lee", some "4B", none⟩).Pairwise specOrder) :=
  ⟨fun s hs => by cases hs; decide,
   c6_filter_correct
     [⟨0, "Cat", "Smith", "2A", "555", "c@x.com", true⟩,
      ⟨1, "Bob", "Lee", "4B", "556", "b@x.com", true⟩,
      ⟨2, "Ann", "Lee", "4B", "557", "a@x.com", true⟩]
     ⟨some "lee", some "4B", none⟩ (fun s hs => by cases hs; decide)⟩

/-- C9: on the resident list, a `q` or `apartment` parameter supplied as
the empty string imposes no restriction — the result is identical to
omitting the parameter — whereas an `is_active` parameter supplied as
the empty string restricts the result to inactive residents only: the
empty string parses as false rather than being ignored. -/
theorem c9_empty_string_params (db : List Resident) (q ap ia : Option String) :
    ResidentViewSet.get_queryset db ⟨some "", ap, ia⟩ =
      ResidentViewSet.get_queryset db ⟨none, ap, ia⟩ ∧
    ResidentViewSet.get_queryset db ⟨q, some "", ia⟩ =
      ResidentViewSet.get_queryset db ⟨q, none, ia⟩ ∧
    (∀ r, r ∈ ResidentViewSet.get_queryset db ⟨q, ap, some ""⟩ ↔
      (r ∈ ResidentViewSet.get_queryset db ⟨q, ap, none⟩ ∧ r.is_active = false)) := by
  refine ⟨?_, ?_, ?_⟩
  · unfold ResidentViewSet.get_queryset
    exact congrArg orderBy (List.filter_congr (fun x _ => rfl))
  · unfold ResidentViewSet.get_queryset
    exact congrArg orderBy (List.filter_congr (fun x _ => rfl))
  · intro r
    unfold ResidentViewSet.get_queryset
    rw [(orderBy_perm _).mem_iff, (orderBy_perm _).mem_iff,
      List.mem_filter, List.mem_filter]
    simp only [residentPred, isActiveClause]
    have hpa : parseActiveParam "" = false := rfl
    rw [hpa]
    simp only [Bool.and_eq_true, Bool.and_true, beq_iff_eq, and_assoc]
